import Mathlib

/-!
Shallow embedding, in Lean 4, of the presidio_demo repository's three source
files:

* `src/llm_recognizer.py`   — the `LlmRecognizer` class: prompt construction,
  JSON-array extraction from the LLM completion (the regex
  `\[\s*\{.*?\}\s*\]` under `re.DOTALL`), recovery of span offsets with
  `str.find`, and construction of `RecognizerResult` objects;
* `src/connectors/openai_connector.py` — `predict_with_gpt_4`: credential
  lookup from the environment, and the retry loop with exponential backoff;
* `anonymize_folder.py` — `process_file`, `load_custom_entities`, and the
  batch loop of `main` with its four counters.

Python strings are modelled as `List Char` (with `String` wrappers where the
code passes strings around); Python `None`-or-value results as `Option`;
raised exceptions as `Except`. External collaborators (the OpenAI client,
`json.loads`, the file system) are parameters of the embedded functions:
an embedded function receives the outcome of each external call as data and
is itself pure. Python `dict`s are modelled as association lists in insertion
order; the one use of `set(...)` (deduplicating supported entities) is
modelled with `List.dedup`, which enumerates the same set of elements
(CPython's set iteration order is hash-dependent, so only membership in that
list is specified).
-/

/-! ## Python string primitives -/

/-- Python `str.find(sub)`: the least index at which `sub` occurs in the
text, or `none` when it does not occur (Python returns `-1`). -/
def findSub (p : List Char) : List Char → Option Nat
  | [] => if p.isPrefixOf ([] : List Char) then some 0 else none
  | c :: t =>
    if p.isPrefixOf (c :: t) then some 0
    else (findSub p t).map (· + 1)

/-- Python `sub in s` (substring containment test). -/
def containsSub (s p : List Char) : Bool :=
  (findSub p s).isSome

/-- Python slice `l[s : s + len]`. -/
def sliceList (l : List Char) (s len : Nat) : List Char :=
  (l.drop s).take len

/-- `', '.join(parts)`. -/
def joinComma (parts : List String) : String :=
  String.intercalate ", " parts

/-! ## Data model of `llm_recognizer.py` -/

/-- One parsed object of the LLM's JSON array: the keys `entity_type`,
`entity_text`, `score` and `explanation` read by `LlmRecognizer.analyze`.
The JSON number `score` is carried as a rational; `analyze` only copies it. -/
structure LlmEntity where
  entity_type : String
  entity_text : String
  score : ℚ
  explanation : String
deriving DecidableEq, Repr

/-- presidio's `AnalysisExplanation` as `analyze` fills it in. -/
structure AnalysisExplanation where
  recognizer : String
  original_score : ℚ
  textual_explanation : String
deriving DecidableEq, Repr

/-- presidio's `RecognizerResult` as `analyze` fills it in. Python's `end`
is a Lean keyword; it is named `end_` here. -/
structure RecognizerResult where
  entity_type : String
  start : Nat
  end_ : Nat
  score : ℚ
  analysis_explanation : AnalysisExplanation
deriving DecidableEq, Repr

/-- A custom entity definition: the nested `Dict[str, str]` value of the
`custom_entities` mapping, as an association list of its fields. -/
abbrev CustomInfo : Type := List (String × String)

/-- Python `d.get(key, default)` on a string-valued dict. -/
def dictGetD (fields : CustomInfo) (key dflt : String) : String :=
  match List.lookup key fields with
  | some v => v
  | none => dflt

/-- `LlmRecognizer.ENTITIES`. -/
def ENTITIES : List String := ["LOCATION", "PERSON", "ORGANIZATION"]

/-- The state of a constructed `LlmRecognizer`: the fields its `__init__`
assigns and `analyze` reads. -/
structure LlmRecognizer where
  model_name : String
  supported_entities : List String
  custom_entities : List (String × CustomInfo)
deriving DecidableEq, Repr

/-- `LlmRecognizer.__init__`. Python truthiness: a `None` or empty
`supported_entities` argument falls back to `ENTITIES`, a `None` or empty
`custom_entities` argument becomes the empty dict, and the dedup-union with
the custom entity names happens only when the custom dict is non-empty.
`__init__` contains no model-name check and cannot fail. -/
def llmRecognizerInit (model_name : String)
    (supported_entities : Option (List String))
    (custom_entities : Option (List (String × CustomInfo))) : LlmRecognizer :=
  let custom : List (String × CustomInfo) :=
    match custom_entities with
    | some l => l
    | none => []
  let sup : List String :=
    match supported_entities with
    | some l => if l.isEmpty then ENTITIES else l
    | none => ENTITIES
  let sup : List String :=
    if custom.isEmpty then sup else (sup ++ custom.map Prod.fst).dedup
  { model_name := model_name, supported_entities := sup,
    custom_entities := custom }

/-! ## Prompt construction (`LlmRecognizer.analyze`, lines 81–124) -/

/-- The per-custom-entity prompt lines: for each requested entity that has a
custom definition, a `- name: description` line and, when the `examples`
field is a non-empty string, an `  Examples: ...` line. -/
def customPromptLines (custom : List (String × CustomInfo)) :
    List String → String
  | [] => ""
  | e :: rest =>
    let tail := customPromptLines custom rest
    match List.lookup e custom with
    | none => tail
    | some info =>
      let description := dictGetD info "description" "No description provided"
      let examples := dictGetD info "examples" ""
      "- " ++ e ++ ": " ++ description ++ "\n" ++
        (if examples = "" then "" else "  Examples: " ++ examples ++ "\n") ++
        tail

/-- The prompt `LlmRecognizer.analyze` assembles (after the empty-`entities`
default has already been applied). -/
def buildPrompt (r : LlmRecognizer) (text : String) (entities : List String)
    (allow_list : List String) : String :=
  let p :=
    "Given below is a text input that might contain various types of Personal Identifiable Information (PII).\n" ++
    "Your task is to extract PII entities of the following types **ONLY**:\n"
  let standard_entities :=
    entities.filter (fun e => (List.lookup e r.custom_entities).isNone)
  let p :=
    if standard_entities.isEmpty then p
    else p ++ "Standard entities: " ++ joinComma standard_entities ++ "\n"
  let p :=
    if entities.any (fun e => (List.lookup e r.custom_entities).isSome) then
      p ++ "\nCustom entity types to detect:\n" ++
        customPromptLines r.custom_entities entities
    else p
  let p := p ++
    "\nFor each detected entity, output an object with the following keys:\n" ++
    "- 'entity_type': a string representing the type of PII (e.g. PERSON, LOCATION, EMAIL)\n" ++
    "- 'entity_text': a string representing the verbatim PII text, exactly as it appears in the input\n" ++
    "- 'score': a float between 0 and 1, representing the confidence in the detection\n" ++
    "- 'explanation': a string explaining the reasoning behind the detection\n"
  let p :=
    if !allow_list.isEmpty then
      p ++ "\nIMPORTANT: The following terms should NOT be considered PII, even if they match entity patterns:\n" ++
        joinComma allow_list ++ "\n"
    else p
  p ++
    "\nMake sure your output is **ONLY** a valid JSON array containing these objects, and nothing else. " ++
    "No text before or after the JSON array. Just a valid JSON array.\n" ++
    "\nNow, extract the PII entities from the following text:\n" ++
    "Text: " ++ text

/-! ## JSON-array extraction (`LlmRecognizer._extract_json_from_response`)

The Python code runs `re.search(r'\[\s*\{.*?\}\s*\]', response, re.DOTALL)`.
Because `{`, `]` are not whitespace and `.` (under `DOTALL`) matches every
character, the engine's behaviour is deterministic: at a candidate start the
greedy `\s*` runs must consume exactly the maximal whitespace run (any
shorter run leaves a whitespace character where `\{` or `\]` is required),
and the lazy `.*?` stops at the first position from which `\}\s*\]`
completes. `re.search` returns the match at the leftmost start position at
which any match exists. -/

/-- Python's `\s` on the ASCII range: space, `\t`, `\n`, `\r`, `\x0b`
(vertical tab), `\x0c` (form feed). -/
def isPyWs (c : Char) : Bool :=
  c = ' ' || c = '\t' || c = '\n' || c = '\x0d' || c = '\x0b' || c = '\x0c'

/-- Length of the maximal `\s*` run at the head of the list. -/
def wsCount : List Char → Nat
  | [] => 0
  | c :: t => if isPyWs c then wsCount t + 1 else 0

/-- Match `\}\s*\]` at the head of `l`: the number of characters consumed,
or `none`. -/
def closeLen (l : List Char) : Option Nat :=
  match l with
  | [] => none
  | c :: t =>
    if c = '}' then
      let w := wsCount t
      match t.drop w with
      | [] => none
      | d :: _ => if d = ']' then some (1 + w + 1) else none
    else none

/-- The lazy `.*?\}\s*\]`: the least offset `k` at which `\}\s*\]` matches,
with the characters it consumes there; `none` when no offset matches. -/
def findClose : List Char → Option (Nat × Nat)
  | [] => none
  | c :: t =>
    match closeLen (c :: t) with
    | some m => some (0, m)
    | none => (findClose t).map (fun p => (p.1 + 1, p.2))

/-- Match the whole pattern `\[\s*\{.*?\}\s*\]` at the head of `l`: the
length of the (leftmost-lazy) match, or `none`. -/
def matchArrayAt (l : List Char) : Option Nat :=
  match l with
  | [] => none
  | c :: t =>
    if c = '[' then
      let w := wsCount t
      match t.drop w with
      | [] => none
      | d :: u =>
        if d = '{' then
          match findClose u with
          | some (k, m) => some (1 + w + 1 + k + m)
          | none => none
        else none
    else none

/-- `re.search` of the pattern over the whole response: the leftmost start
position at which the pattern matches, with the match's length. -/
def searchArray : List Char → Option (Nat × Nat)
  | [] => none
  | c :: t =>
    match matchArrayAt (c :: t) with
    | some len => some (0, len)
    | none => (searchArray t).map (fun p => (p.1 + 1, p.2))

/-! ## The connector (`openai_connector.predict_with_gpt_4`) -/

/-- The outcome of one `client.chat.completions.create` call, supplied by
the environment: a completion, an error of one of the three retried classes
(`openai.APIError`, `openai.APIConnectionError`, `openai.RateLimitError`), or
any other exception (which the `except` clause does not catch). -/
inductive AttemptOutcome where
  | success (response : String)
  | retryableError (msg : String)
  | otherError (msg : String)
deriving DecidableEq, Repr

/-- An exception escaping `predict_with_gpt_4`. -/
inductive PredictError where
  /-- `ValueError("OPENAI_API_KEY environment variable not set")`. -/
  | configError
  /-- A retried error class re-raised after the retry budget is spent. -/
  | apiError (msg : String)
  /-- An exception of a class the `except` clause does not catch. -/
  | uncaught (msg : String)
  /-- `NameError`: the `while` loop ended with `response` unassigned.
  (Unreachable when the loop starts at `retry_count = 0`.) -/
  | unboundResponse
deriving DecidableEq, Repr

/-- What one call to `predict_with_gpt_4` did: its result, how many times it
called the provider, and the argument of each `sleep` in order. -/
structure PredictTrace where
  result : Except PredictError String
  calls : Nat
  sleeps : List Nat
deriving Repr

instance : DecidableEq (Except PredictError String) := fun a b =>
  match a, b with
  | .ok x, .ok y => decidable_of_iff (x = y) (by simp)
  | .error x, .error y => decidable_of_iff (x = y) (by simp)
  | .ok _, .error _ => .isFalse (by simp)
  | .error _, .ok _ => .isFalse (by simp)

instance : DecidableEq PredictTrace := fun a b =>
  decidable_of_iff
    (a.result = b.result ∧ a.calls = b.calls ∧ a.sleeps = b.sleeps)
    (by cases a; cases b; simp [PredictTrace.mk.injEq])

/-- `max_retries` of `predict_with_gpt_4`. -/
def max_retries : Nat := 3

/-- The `while retry_count < max_retries` loop, from `retry_count = rc` with
`fuel` remaining iterations (`fuel` stands for `max_retries - rc`; the
provider's outcome for the call made at `retry_count = i` is `attempts i`).
On a retryable error the code increments `retry_count`, re-raises when it
reaches `max_retries`, and otherwise sleeps `2 ^ retry_count` seconds. -/
def predictLoop (attempts : Nat → AttemptOutcome) : Nat → Nat → PredictTrace
  | _, 0 => { result := .error .unboundResponse, calls := 0, sleeps := [] }
  | rc, fuel + 1 =>
    match attempts rc with
    | .success s => { result := .ok s, calls := 1, sleeps := [] }
    | .otherError m => { result := .error (.uncaught m), calls := 1, sleeps := [] }
    | .retryableError m =>
      if rc + 1 = max_retries then
        { result := .error (.apiError m), calls := 1, sleeps := [] }
      else
        let rest := predictLoop attempts (rc + 1) fuel
        { result := rest.result, calls := rest.calls + 1,
          sleeps := 2 ^ (rc + 1) :: rest.sleeps }

/-- `predict_with_gpt_4`: resolve `OPENAI_API_KEY` from the environment at
call time; when it is absent (or empty — Python truthiness), raise
`ValueError` before any provider call; otherwise run the retry loop from
`retry_count = 0`. -/
def predict_with_gpt_4 (env_OPENAI_API_KEY : Option String)
    (attempts : Nat → AttemptOutcome) : PredictTrace :=
  match env_OPENAI_API_KEY with
  | none => { result := .error .configError, calls := 0, sleeps := [] }
  | some k =>
    if k = "" then { result := .error .configError, calls := 0, sleeps := [] }
    else predictLoop attempts 0 max_retries

/-! ## `LlmRecognizer.analyze` -/

/-- An exception escaping `LlmRecognizer.analyze`. -/
inductive AnalyzeError where
  /-- `ValueError("Invalid Model Name")`. -/
  | invalidModel
  /-- An exception propagated out of `predict_with_gpt_4`. -/
  | connector (e : PredictError)
  /-- `ValueError("No JSON array found in the response")`. -/
  | noJsonArray
  /-- `json.JSONDecodeError` (or a shape error) out of `json.loads` /
  the `entry[...]` key accesses. -/
  | jsonDecodeError (msg : String)
  /-- `TypeError`: `start, end = None` — `_find_text_indices` returned
  `None` and the tuple unpacking in `analyze` fails. -/
  | typeErrorUnpackNone
deriving DecidableEq, Repr

/-- The external collaborators of `analyze`, supplied as data: the provider
(everything `predict_with_gpt_4` does, as a function of the prompt) and
`json.loads` together with the `entry[...]` key accesses (as a function of
the matched substring). -/
structure LlmEnv where
  llm : String → Except PredictError String
  jsonLoads : String → Except String (List LlmEntity)

/-- `LlmRecognizer._find_text_indices`: Python `text.find(substring)`; on
`-1` return `None`, else the pair `(start, start + len(substring))`. -/
def find_text_indices (text substring : List Char) : Option (Nat × Nat) :=
  match findSub substring text with
  | none => none
  | some start => some (start, start + substring.length)

/-- `LlmRecognizer._extract_json_from_response`: search for the regex; on a
match run `json.loads` on the matched substring, otherwise raise
`ValueError`. -/
def extract_json_from_response (jsonLoads : String → Except String (List LlmEntity))
    (response : String) : Except AnalyzeError (List LlmEntity) :=
  match searchArray response.data with
  | some (s, len) =>
    match jsonLoads (String.mk (sliceList response.data s len)) with
    | .ok l => .ok l
    | .error e => .error (.jsonDecodeError e)
  | none => .error .noJsonArray

/-- The `RecognizerResult` built for one parsed entry whose offsets resolved
to `(start, end)`. -/
def mkRecognizerResult (e : LlmEntity) (start end_ : Nat) : RecognizerResult :=
  { entity_type := e.entity_type, start := start, end_ := end_,
    score := e.score,
    analysis_explanation :=
      { recognizer := "LlmRecognizer", original_score := e.score,
        textual_explanation := e.explanation } }

/-- The `for entry in response_list` loop of `analyze`: for each entry,
unpack `self._find_text_indices(text, entry['entity_text'])` — a `TypeError`
when it is `None` — and append the constructed `RecognizerResult`. -/
def buildResults (text : List Char) :
    List LlmEntity → Except AnalyzeError (List RecognizerResult)
  | [] => .ok []
  | e :: rest =>
    match find_text_indices text e.entity_text.data with
    | none => .error .typeErrorUnpackNone
    | some (s, en) => (buildResults text rest).map (mkRecognizerResult e s en :: ·)

/-- `LlmRecognizer.analyze`: default empty `entities` to
`self.supported_entities`, build the prompt, dispatch on the model name
(`"gpt_4o" in self.model_name`, else `ValueError("Invalid Model Name")`),
call the connector, extract the JSON array, and build the results. -/
def analyze (r : LlmRecognizer) (env : LlmEnv) (text : String)
    (entities : List String) (allow_list : List String) :
    Except AnalyzeError (List RecognizerResult) :=
  let entities := if entities.isEmpty then r.supported_entities else entities
  let prompt := buildPrompt r text entities allow_list
  if containsSub r.model_name.data "gpt_4o".data then
    match env.llm prompt with
    | .error e => .error (.connector e)
    | .ok response_str =>
      match extract_json_from_response env.jsonLoads response_str with
      | .error e => .error e
      | .ok response_list => buildResults text.data response_list
  else .error AnalyzeError.invalidModel

/-! ## `anonymize_folder.py` -/

/-- The environment's behaviour for one file, as `process_file` observes it:
whether `is_binary_file` reports it binary, whether the reads succeed (the
utf-8 attempt with its latin-1 fallback collapsed into one outcome), whether
`analyze` raises or returns `n` results, and whether `anonymize` and the
output write raise. -/
structure FileEnv where
  isBinary : Bool
  readResult : Option String
  analyzeResult : Option Nat
  anonymizeRaises : Bool
  writeRaises : Bool
deriving DecidableEq, Repr

/-- `process_file`. Every failure path executes `return 0`; the success path
returns `len(results)`. The Python value is dynamically typed, so the
result type is `Option Nat`: `process_file` itself never produces `none`
(Python `None`). -/
def process_file (f : FileEnv) : Option Nat :=
  if f.isBinary then some 0
  else
    match f.readResult with
    | none => some 0
    | some _text =>
      match f.analyzeResult with
      | none => some 0
      | some n =>
        if f.anonymizeRaises then some 0
        else if f.writeRaises then some 0
        else some n

/-- One file of the batch loop: either the call to `process_file` returns
(with the file's `FileEnv`), or an exception escapes it and the `except`
clause of `main` runs. -/
inductive FileCall where
  | normal (env : FileEnv)
  | raisesUncaught
deriving DecidableEq, Repr

/-- The four counters of `main`. -/
structure RunCounters where
  file_count : Nat
  processed_count : Nat
  entity_count : Nat
  error_count : Nat
deriving DecidableEq, Repr

/-- One iteration of the `for file_path in files_to_process` loop of `main`:
`file_count += 1`; then `entities_found = process_file(...)` under
`try`/`except` — on a returned value, `if entities_found is not None`
increments `processed_count` (and adds to `entity_count`), else
`error_count += 1`; on an exception, `error_count += 1`. -/
def mainStep (c : RunCounters) (f : FileCall) : RunCounters :=
  let c := { c with file_count := c.file_count + 1 }
  match f with
  | .raisesUncaught => { c with error_count := c.error_count + 1 }
  | .normal env =>
    match process_file env with
    | some n =>
      { c with processed_count := c.processed_count + 1,
               entity_count := c.entity_count + n }
    | none => { c with error_count := c.error_count + 1 }

/-- The whole batch loop of `main`, from zeroed counters. -/
def mainLoop (files : List FileCall) : RunCounters :=
  files.foldl mainStep ⟨0, 0, 0, 0⟩

/-- A value of the loaded custom-entities JSON mapping: a JSON object
(modelled as its fields, an association list) or anything else. -/
inductive PyVal where
  | dict (fields : CustomInfo)
  | nonDict
deriving DecidableEq, Repr

/-- The validation/defaulting loop of `load_custom_entities`, over the
mapping parsed from the JSON file (file I/O and `json.load` errors, and the
empty-path guard, happen before this loop and yield `None` for the whole
call). A record whose value is not a dict makes the whole call return
`None`; a record without a `description` key gets
`"Custom entity type: {name}"` appended; others pass through unchanged. -/
def load_custom_entities :
    List (String × PyVal) → Option (List (String × CustomInfo))
  | [] => some []
  | (_name, .nonDict) :: _ => none
  | (name, .dict fields) :: rest =>
    let fields :=
      if (List.lookup "description" fields).isNone then
        fields ++ [("description", "Custom entity type: " ++ name)]
      else fields
    (load_custom_entities rest).map ((name, fields) :: ·)

/-! ## Lemmas about `findSub` (Python `str.find`) -/

/-- When `findSub` reports index `i`, the pattern is a prefix of the text's
suffix at `i`. -/
theorem findSub_sound {p : List Char} : ∀ {t : List Char} {i : Nat},
    findSub p t = some i → p.isPrefixOf (t.drop i) = true := by
  intro t
  induction t with
  | nil =>
    intro i h
    simp only [findSub] at h
    split at h
    · simp_all
    · simp_all
  | cons c t ih =>
    intro i h
    simp only [findSub] at h
    split at h
    · obtain rfl : i = 0 := by simpa using (Option.some.injEq _ _ ▸ h).symm ▸ rfl
      simpa using ‹p.isPrefixOf (c :: t) = true›
    · obtain ⟨j, hj, rfl⟩ := Option.map_eq_some'.mp h
      simpa using ih hj

/-- `findSub` reports the least index: the pattern occurs at no earlier
position. -/
theorem findSub_min {p : List Char} : ∀ {t : List Char} {i : Nat},
    findSub p t = some i → ∀ j < i, p.isPrefixOf (t.drop j) = false := by
  intro t
  induction t with
  | nil =>
    intro i h j hj
    simp only [findSub] at h
    split at h
    · cases h; omega
    · exact absurd h (by simp)
  | cons c t ih =>
    intro i h j hj
    simp only [findSub] at h
    split at h
    · cases h; omega
    · obtain ⟨k, hk, rfl⟩ := Option.map_eq_some'.mp h
      cases j with
      | zero => simpa using Bool.of_not_eq_true ‹¬p.isPrefixOf (c :: t) = true›
      | succ j' => simpa using ih hk j' (by omega)

/-- `findSub` finds the pattern whenever it occurs somewhere. -/
theorem findSub_isSome_of_prefixAt {p : List Char} : ∀ {t : List Char} {i : Nat},
    p.isPrefixOf (t.drop i) = true → (findSub p t).isSome := by
  intro t
  induction t with
  | nil =>
    intro i h
    simp only [List.drop_nil] at h
    simp [findSub, h]
  | cons c t ih =>
    intro i h
    by_cases hp : p.isPrefixOf (c :: t) = true
    · simp [findSub, hp]
    · cases i with
      | zero => simp_all
      | succ i' =>
        simp only [List.drop_succ_cons] at h
        have := ih h
        simp only [findSub, hp, if_false]
        simpa [Option.isSome_map] using this

/-- The slice at a reported occurrence reproduces the pattern. -/
theorem slice_of_prefixAt {p t : List Char} {s : Nat}
    (h : p.isPrefixOf (t.drop s) = true) : sliceList t s p.length = p :=
  (List.prefix_iff_eq_take.mp (List.isPrefixOf_iff_prefix.mp h)).symm

/-! ## Lemmas about the regex model -/

theorem wsCount_append {w : List Char} (hw : ∀ c ∈ w, isPyWs c = true)
    {c : Char} (hc : isPyWs c = false) (rest : List Char) :
    wsCount (w ++ c :: rest) = w.length := by
  induction w with
  | nil => simp [wsCount, hc]
  | cons a t ih =>
    have ha : isPyWs a = true := hw a (by simp)
    simp only [List.cons_append, wsCount, ha, if_true, List.length_cons]
    rw [List.append_eq, ih (fun x hx => hw x (by simp [hx]))]

theorem wsCount_le : ∀ (l : List Char), wsCount l ≤ l.length := by
  intro l
  induction l with
  | nil => simp [wsCount]
  | cons c t ih =>
    simp only [wsCount, List.length_cons]
    split <;> omega

theorem wsCount_take_ws : ∀ (l : List Char), ∀ c ∈ l.take (wsCount l), isPyWs c = true := by
  intro l
  induction l with
  | nil => simp
  | cons a t ih =>
    simp only [wsCount]
    split
    · intro c hc
      simp only [List.take_succ_cons, List.mem_cons] at hc
      rcases hc with rfl | hc
      · assumption
      · exact ih c hc
    · simp

theorem closeLen_sound {x : List Char} {m : Nat} (h : closeLen x = some m) :
    ∃ w2 rest, (∀ c ∈ w2, isPyWs c = true)
      ∧ x = '}' :: w2 ++ ']' :: rest ∧ m = w2.length + 2 := by
  cases x with
  | nil => exact absurd h (by simp [closeLen])
  | cons c t =>
    simp only [closeLen] at h
    split at h
    · rename_i hc
      cases hd : t.drop (wsCount t) with
      | nil => rw [hd] at h; simp at h
      | cons d rest =>
        rw [hd] at h
        dsimp only at h
        split at h
        · rename_i hdr
          have hlen : (t.take (wsCount t)).length = wsCount t := by
            rw [List.length_take]
            exact Nat.min_eq_left (wsCount_le t)
          refine ⟨t.take (wsCount t), rest, wsCount_take_ws t, ?_, ?_⟩
          · subst hc hdr
            rw [show ('}' : Char) :: List.take (wsCount t) t ++ ']' :: rest
                = '}' :: (List.take (wsCount t) t ++ ']' :: rest) from rfl]
            rw [← hd, List.take_append_drop]
          · injection h with h2
            omega
        · simp at h
    · simp at h

theorem closeLen_complete {w2 rest : List Char}
    (hw : ∀ c ∈ w2, isPyWs c = true) :
    closeLen ('}' :: w2 ++ ']' :: rest) = some (w2.length + 2) := by
  have hbr : isPyWs ']' = false := by decide
  simp only [closeLen, if_pos rfl]
  rw [show ('}' : Char) :: w2 ++ ']' :: rest = '}' :: (w2 ++ ']' :: rest) from rfl]
  dsimp only
  rw [wsCount_append hw hbr rest, List.drop_left]
  simp
  omega

theorem findClose_sound : ∀ {u : List Char} {k m : Nat},
    findClose u = some (k, m) → closeLen (u.drop k) = some m := by
  intro u
  induction u with
  | nil => intro k m h; exact absurd h (by simp [findClose])
  | cons c t ih =>
    intro k m h
    simp only [findClose] at h
    cases hc : closeLen (c :: t) with
    | some m0 =>
      rw [hc] at h
      injection h with h2
      obtain ⟨rfl, rfl⟩ : 0 = k ∧ m0 = m := by
        have := Prod.mk.injEq 0 m0 k m ▸ h2
        exact this
      simpa using hc
    | none =>
      rw [hc] at h
      obtain ⟨⟨k2, m2⟩, hk2, hpair⟩ := Option.map_eq_some'.mp h
      obtain ⟨rfl, rfl⟩ : k2 + 1 = k ∧ m2 = m := by
        have := Prod.mk.injEq (k2 + 1) m2 k m ▸ hpair
        exact this
      simpa using ih hk2

theorem findClose_isSome {u : List Char} {j m : Nat}
    (h : closeLen (u.drop j) = some m) : (findClose u).isSome := by
  induction u generalizing j with
  | nil =>
    rw [List.drop_nil] at h
    exact absurd h (by simp [closeLen])
  | cons c t ih =>
    simp only [findClose]
    cases hc : closeLen (c :: t) with
    | some m0 => simp
    | none =>
      cases j with
      | zero => rw [List.drop_zero] at h; rw [h] at hc; exact absurd hc (by simp)
      | succ j2 =>
        rw [List.drop_succ_cons] at h
        simpa [Option.isSome_map] using ih h

/-- The spec's description of the extracted substring: shaped like a JSON
array of objects, `[ { ... } ]` — an opening bracket, whitespace, an opening
brace, any characters, a closing brace, whitespace, a closing bracket. -/
def ShapedArr (l : List Char) : Prop :=
  ∃ w1 mid w2, (∀ c ∈ w1, isPyWs c = true) ∧ (∀ c ∈ w2, isPyWs c = true)
    ∧ l = '[' :: w1 ++ '{' :: mid ++ '}' :: w2 ++ [']']

theorem take_full_shape (w1 mid w2 rest : List Char) :
    ('[' :: (w1 ++ '{' :: (mid ++ ('}' :: w2 ++ ']' :: rest)))).take
        (w1.length + mid.length + w2.length + 4)
      = '[' :: w1 ++ '{' :: mid ++ '}' :: w2 ++ [']'] := by
  rw [show w1.length + mid.length + w2.length + 4
      = (w1.length + (mid.length + (w2.length + 2) + 1)) + 1 by omega,
    List.take_succ_cons, List.take_append,
    show mid.length + (w2.length + 2) + 1 = (mid.length + (w2.length + 2)) + 1
      from rfl,
    List.take_succ_cons, List.take_append]
  rw [List.cons_append, show w2.length + 2 = (w2.length + 1) + 1 by omega,
    List.take_succ_cons, List.take_append]
  simp

theorem matchArrayAt_sound {l : List Char} {n : Nat}
    (h : matchArrayAt l = some n) : ShapedArr (l.take n) := by
  cases l with
  | nil => exact absurd h (by simp [matchArrayAt])
  | cons c t =>
    simp only [matchArrayAt] at h
    split at h
    · rename_i hc
      cases hd : t.drop (wsCount t) with
      | nil => rw [hd] at h; simp at h
      | cons d u =>
        rw [hd] at h
        dsimp only at h
        split at h
        · rename_i hdbrace
          cases hf : findClose u with
          | none => rw [hf] at h; simp at h
          | some km =>
            obtain ⟨k, m⟩ := km
            rw [hf] at h
            dsimp only at h
            injection h with h2
            obtain ⟨w2, rest, hw2, hcl, hm⟩ := closeLen_sound (findClose_sound hf)
            subst hc hdbrace
            have hwle := wsCount_le t
            have hkle : k ≤ u.length := by
              by_contra hgt
              have hnil : u.drop k = [] := List.drop_eq_nil_iff.mpr (by omega)
              rw [hnil] at hcl
              exact absurd hcl (by simp)
            obtain ⟨w1, hw1len, hw1ws, ht⟩ :
                ∃ w1, w1.length = wsCount t ∧ (∀ c ∈ w1, isPyWs c = true)
                  ∧ t = w1 ++ '{' :: u := by
              refine ⟨t.take (wsCount t), ?_, wsCount_take_ws t, ?_⟩
              · rw [List.length_take]; exact Nat.min_eq_left hwle
              · conv_lhs => rw [← List.take_append_drop (wsCount t) t]
                rw [hd]
            obtain ⟨mid, hmidlen, hu⟩ :
                ∃ mid, mid.length = k ∧ u = mid ++ ('}' :: w2 ++ ']' :: rest) := by
              refine ⟨u.take k, ?_, ?_⟩
              · rw [List.length_take]; exact Nat.min_eq_left hkle
              · conv_lhs => rw [← List.take_append_drop k u]
                rw [hcl]
            refine ⟨w1, mid, w2, hw1ws, hw2, ?_⟩
            have hn : n = w1.length + mid.length + w2.length + 4 := by omega
            rw [hn, ht, hu]
            exact take_full_shape w1 mid w2 rest
        · simp at h
    · simp at h

theorem matchArrayAt_complete {l : List Char} {n : Nat}
    (h : ShapedArr (l.take n)) : matchArrayAt l ≠ none := by
  obtain ⟨w1, mid, w2, hw1, hw2, hsh⟩ := h
  obtain ⟨rest, hl⟩ :
      ∃ rest, l = '[' :: (w1 ++ '{' :: (mid ++ ('}' :: w2 ++ ']' :: rest))) := by
    refine ⟨l.drop n, ?_⟩
    conv_lhs => rw [← List.take_append_drop n l]
    rw [hsh]
    simp
  subst hl
  simp only [matchArrayAt, if_pos rfl]
  rw [wsCount_append hw1 (by decide), List.drop_left]
  dsimp only
  rw [if_pos rfl]
  have hcl : closeLen ((mid ++ ('}' :: w2 ++ ']' :: rest)).drop mid.length)
      = some (w2.length + 2) := by
    rw [List.drop_left]
    exact closeLen_complete hw2
  cases hf : findClose (mid ++ ('}' :: w2 ++ ']' :: rest)) with
  | none =>
    have := findClose_isSome hcl
    rw [hf] at this
    exact absurd this (by simp)
  | some km => simp

theorem searchArray_none : ∀ {l : List Char}, searchArray l = none →
    ∀ i, matchArrayAt (l.drop i) = none := by
  intro l
  induction l with
  | nil => intro _ i; rw [List.drop_nil]; simp [matchArrayAt]
  | cons c t ih =>
    intro h i
    simp only [searchArray] at h
    cases hm : matchArrayAt (c :: t) with
    | some len => rw [hm] at h; exact absurd h (by simp)
    | none =>
      rw [hm] at h
      have ht : searchArray t = none := by
        cases hs : searchArray t with
        | none => rfl
        | some p => rw [hs] at h; exact absurd h (by simp)
      cases i with
      | zero => simpa using hm
      | succ i2 => rw [List.drop_succ_cons]; exact ih ht i2

theorem searchArray_some : ∀ {l : List Char} {s len : Nat},
    searchArray l = some (s, len) →
    matchArrayAt (l.drop s) = some len
      ∧ ∀ i < s, matchArrayAt (l.drop i) = none := by
  intro l
  induction l with
  | nil => intro s len h; exact absurd h (by simp [searchArray])
  | cons c t ih =>
    intro s len h
    simp only [searchArray] at h
    cases hm : matchArrayAt (c :: t) with
    | some len0 =>
      rw [hm] at h
      injection h with h2
      obtain ⟨rfl, rfl⟩ : 0 = s ∧ len0 = len := by
        have := Prod.mk.injEq 0 len0 s len ▸ h2
        exact this
      exact ⟨by simpa using hm, by omega⟩
    | none =>
      rw [hm] at h
      obtain ⟨⟨s2, len2⟩, hs2, hpair⟩ := Option.map_eq_some'.mp h
      obtain ⟨rfl, rfl⟩ : s2 + 1 = s ∧ len2 = len := by
        have := Prod.mk.injEq (s2 + 1) len2 s len ▸ hpair
        exact this
      obtain ⟨hma, hmin⟩ := ih hs2
      refine ⟨by simpa using hma, ?_⟩
      intro i hi
      cases i with
      | zero => simpa using hm
      | succ i2 => rw [List.drop_succ_cons]; exact hmin i2 (by omega)

/-! ## Helper lemmas for the retry loop, the batch loop and custom entities -/

theorem predictLoop_success {attempts : Nat → AttemptOutcome} {rc fuel : Nat}
    {s : String} (h : attempts rc = .success s) :
    predictLoop attempts rc (fuel + 1) = ⟨.ok s, 1, []⟩ := by
  simp [predictLoop, h]

theorem predictLoop_raise {attempts : Nat → AttemptOutcome} {rc fuel : Nat}
    {m : String} (h : attempts rc = .retryableError m)
    (heq : rc + 1 = max_retries) :
    predictLoop attempts rc (fuel + 1) = ⟨.error (.apiError m), 1, []⟩ := by
  simp [predictLoop, h, heq]

theorem predictLoop_retry {attempts : Nat → AttemptOutcome} {rc fuel : Nat}
    {m : String} (h : attempts rc = .retryableError m)
    (hne : ¬ rc + 1 = max_retries) :
    predictLoop attempts rc (fuel + 1)
      = { result := (predictLoop attempts (rc + 1) fuel).result,
          calls := (predictLoop attempts (rc + 1) fuel).calls + 1,
          sleeps := 2 ^ (rc + 1) :: (predictLoop attempts (rc + 1) fuel).sleeps } := by
  simp [predictLoop, h, hne]

theorem predictLoop_other {attempts : Nat → AttemptOutcome} {rc fuel : Nat}
    {m : String} (h : attempts rc = .otherError m) :
    predictLoop attempts rc (fuel + 1) = ⟨.error (.uncaught m), 1, []⟩ := by
  simp [predictLoop, h]

theorem mainLoop_aux (files : List FileCall) (c : RunCounters) :
    (files.foldl mainStep c).file_count = c.file_count + files.length
    ∧ (files.foldl mainStep c).processed_count
        + (files.foldl mainStep c).error_count
      = c.processed_count + c.error_count + files.length := by
  induction files generalizing c with
  | nil => simp
  | cons f rest ih =>
    have hf : (mainStep c f).file_count = c.file_count + 1
        ∧ (mainStep c f).processed_count + (mainStep c f).error_count
          = c.processed_count + c.error_count + 1 := by
      cases f with
      | raisesUncaught => simp [mainStep]; omega
      | normal env => cases h : process_file env <;> simp [mainStep, h] <;> omega
    have h := ih (mainStep c f)
    simp only [List.foldl_cons, List.length_cons]
    omega

theorem buildResults_ne_invalidModel (text : List Char) :
    ∀ es, buildResults text es ≠ .error AnalyzeError.invalidModel := by
  intro es
  induction es with
  | nil => simp [buildResults]
  | cons e rest ih =>
    simp only [buildResults]
    cases find_text_indices text e.entity_text.data with
    | none => simp
    | some p =>
      cases hbr : buildResults text rest with
      | error err =>
        rw [hbr] at ih
        simp_all [Except.map]
      | ok tl => simp [Except.map]

theorem extract_ne_invalidModel
    (jsonLoads : String → Except String (List LlmEntity)) (response : String) :
    extract_json_from_response jsonLoads response
      ≠ .error AnalyzeError.invalidModel := by
  unfold extract_json_from_response
  cases searchArray response.data with
  | none => simp
  | some p =>
    cases hj : jsonLoads (String.mk (sliceList response.data p.1 p.2)) <;>
      simp [hj]

theorem lookup_append_of_none {k : String} {v : String} :
    ∀ {l : List (String × String)}, List.lookup k l = none →
      List.lookup k (l ++ [(k, v)]) = some v := by
  intro l
  induction l with
  | nil => intro _; simp [List.lookup]
  | cons p t ih =>
    intro h
    simp only [List.lookup, List.cons_append] at h ⊢
    split at h
    · exact absurd h (by simp)
    · simp_all [List.lookup]

/-- The relation the spec states between an input custom-entity record and
the record `load_custom_entities` returns for it. -/
def fixedRecord (inp : String × PyVal) (out : String × CustomInfo) : Prop :=
  ∃ fields, inp.2 = .dict fields ∧ out.1 = inp.1
    ∧ ((List.lookup "description" fields).isSome → out.2 = fields)
    ∧ (List.lookup "description" fields = none →
        out.2 = fields ++ [("description", "Custom entity type: " ++ inp.1)]
        ∧ List.lookup "description" out.2
            = some ("Custom entity type: " ++ inp.1))


/-! ## The claims -/

set_option maxRecDepth 10000 in
/-- C1: the claim says an entity whose `entity_text` does not occur verbatim
in the input is dropped and the remaining entities are still returned. The
code does the opposite: `_find_text_indices` returns `None` for such an
entity and the unpacking `start, end = None` in `analyze` raises a
`TypeError`, so the whole analysis fails and no entities are returned — here
evaluated at the failing input: text `"John Smith wrote this"` with parsed
entities `John` (verifiable) and `Mr. Smith` (not present). -/
theorem C1_unverifiable_entity_raises_type_error :
    analyze (llmRecognizerInit "gpt_4o" none none)
      { llm := fun _ => .ok
          "[\x7b\"entity_type\": \"PERSON\", \"entity_text\": \"John\", \"score\": 1, \"explanation\": \"a\"\x7d, \x7b\"entity_type\": \"PERSON\", \"entity_text\": \"Mr. Smith\", \"score\": 1, \"explanation\": \"b\"\x7d]",
        jsonLoads := fun _ => .ok
          [⟨"PERSON", "John", 1, "a"⟩, ⟨"PERSON", "Mr. Smith", 1, "b"⟩] }
      "John Smith wrote this" [] []
      = .error AnalyzeError.typeErrorUnpackNone := by rfl

/-- C2: the claim says a failed (here: binary) file increments the failed
count `error_count` by exactly one. In the code `process_file` returns `0`
(not `None`) on every failure path, so main's `if entities_found is not
None` check increments `processed_count` instead: a batch of one binary
file and one clean file ends with `processed_count = 2`, `error_count = 0`.
The run indeed continues past the binary file. -/
theorem C2_binary_file_counted_processed_not_failed :
    mainLoop [.normal ⟨true, none, none, false, false⟩,
              .normal ⟨false, some "clean text", some 2, false, false⟩]
      = { file_count := 2, processed_count := 2, entity_count := 2,
          error_count := 0 } := by rfl

/-- C3 counterexample: constructing an `LlmRecognizer` with the unsupported
model identifier `"ner-english-large"` does not fail — `__init__` performs
no model-name check and yields an ordinary recognizer — and it is `analyze`
on that recognizer that then fails with `ValueError("Invalid Model Name")`,
contradicting the claim that the failure happens at construction time. -/
theorem C3_construction_succeeds_for_unsupported_model :
    llmRecognizerInit "ner-english-large" none none
      = { model_name := "ner-english-large", supported_entities := ENTITIES,
          custom_entities := [] }
    ∧ analyze (llmRecognizerInit "ner-english-large" none none)
        { llm := fun _ => .ok "[]", jsonLoads := fun _ => .ok [] }
        "some text" [] []
        = .error AnalyzeError.invalidModel :=
  ⟨rfl, rfl⟩

/-- C3 amended: construction never validates the model identifier and always
succeeds; `analyze` raises `ValueError("Invalid Model Name")` at analysis
time exactly when the model name does not contain `"gpt_4o"` as a
substring, and when it does contain it, `analyze` never fails with that
model-name error. -/
theorem C3_model_check_happens_at_analysis (model_name : String) (sup : Option (List String))
    (custom : Option (List (String × CustomInfo))) (env : LlmEnv)
    (text : String) (entities : List String) (allow : List String) :
    (containsSub model_name.data "gpt_4o".data = false →
      analyze (llmRecognizerInit model_name sup custom) env text entities allow
        = .error AnalyzeError.invalidModel)
    ∧ (containsSub model_name.data "gpt_4o".data = true →
      analyze (llmRecognizerInit model_name sup custom) env text entities allow
        ≠ .error AnalyzeError.invalidModel) := by
  have hm : (llmRecognizerInit model_name sup custom).model_name = model_name := by
    simp [llmRecognizerInit]
  constructor
  · intro h
    simp [analyze, hm, h]
  · intro h
    simp only [analyze, hm, h, if_true]
    cases env.llm (buildPrompt (llmRecognizerInit model_name sup custom) text
        (if entities.isEmpty then
            (llmRecognizerInit model_name sup custom).supported_entities
          else entities) allow) with
    | error e => simp
    | ok resp =>
      dsimp only
      cases hx : extract_json_from_response env.jsonLoads resp with
      | error err =>
        dsimp only
        intro hc
        injection hc with h2
        exact extract_ne_invalidModel env.jsonLoads resp (by rw [hx, h2])
      | ok lst =>
        dsimp only
        exact buildResults_ne_invalidModel text.data lst

/-- C4: for a parsed entity whose `entity_text` occurs in the input text,
the recovered span starts at the index of the first literal (case- and
whitespace-sensitive) occurrence of `entity_text`, its end is `start +
len(entity_text)`, `text[start:end]` equals `entity_text`, and the
`RecognizerResult` constructed for that entity in the analysis loop carries
exactly those offsets. -/
theorem C4_span_is_first_literal_occurrence (text : List Char) (e : LlmEntity)
    (h : ∃ i, e.entity_text.data.isPrefixOf (text.drop i) = true) :
    ∃ s, find_text_indices text e.entity_text.data
        = some (s, s + e.entity_text.data.length)
      ∧ e.entity_text.data.isPrefixOf (text.drop s) = true
      ∧ (∀ j < s, e.entity_text.data.isPrefixOf (text.drop j) = false)
      ∧ sliceList text s e.entity_text.data.length = e.entity_text.data
      ∧ ∀ rest res, buildResults text (e :: rest) = .ok res →
          ∃ tl, res = mkRecognizerResult e s (s + e.entity_text.data.length) :: tl := by
  obtain ⟨i, hi⟩ := h
  obtain ⟨s, hfind⟩ := Option.isSome_iff_exists.mp (findSub_isSome_of_prefixAt hi)
  refine ⟨s, ?_, findSub_sound hfind, findSub_min hfind,
    slice_of_prefixAt (findSub_sound hfind), ?_⟩
  · simp [find_text_indices, hfind]
  · intro rest res hres
    simp only [buildResults, find_text_indices, hfind] at hres
    cases hbr : buildResults text rest with
    | error err => rw [hbr] at hres; exact absurd hres (by simp [Except.map])
    | ok tl =>
      rw [hbr] at hres
      simp only [Except.map] at hres
      exact ⟨tl, by injection hres with h2; exact h2.symm⟩

/-- Witness for C4 at the text `"call John Smith today"` and the entity
`"John Smith"`, whose first occurrence starts at index 5. -/
theorem C4_span_witness :
    ∃ s, find_text_indices "call John Smith today".data
          (LlmEntity.entity_text ⟨"PERSON", "John Smith", 1, "seen"⟩).data
        = some (s, s + (LlmEntity.entity_text ⟨"PERSON", "John Smith", 1, "seen"⟩).data.length)
      ∧ (LlmEntity.entity_text ⟨"PERSON", "John Smith", 1, "seen"⟩).data.isPrefixOf
          ("call John Smith today".data.drop s) = true
      ∧ (∀ j < s, (LlmEntity.entity_text ⟨"PERSON", "John Smith", 1, "seen"⟩).data.isPrefixOf
          ("call John Smith today".data.drop j) = false)
      ∧ sliceList "call John Smith today".data s
          (LlmEntity.entity_text ⟨"PERSON", "John Smith", 1, "seen"⟩).data.length
          = (LlmEntity.entity_text ⟨"PERSON", "John Smith", 1, "seen"⟩).data
      ∧ ∀ rest res, buildResults "call John Smith today".data
            (⟨"PERSON", "John Smith", 1, "seen"⟩ :: rest) = .ok res →
          ∃ tl, res = mkRecognizerResult ⟨"PERSON", "John Smith", 1, "seen"⟩ s
              (s + (LlmEntity.entity_text ⟨"PERSON", "John Smith", 1, "seen"⟩).data.length) :: tl :=
  C4_span_is_first_literal_occurrence "call John Smith today".data ⟨"PERSON", "John Smith", 1, "seen"⟩
    ⟨5, by decide⟩

/-- C5: extraction locates the leftmost substring of the completion shaped
like `[ { ... } ]` (`ShapedArr`: a bracket, whitespace, a brace, anything,
a brace, whitespace, a bracket): when no such substring exists the
extraction fails with `ValueError` (`noJsonArray`); when the located
substring is not valid JSON the extraction fails with a decode error; and
either failure propagates out of `analyze`, which then returns no spans. -/
theorem C5_extract_first_shaped_json_substring (jsonLoads : String → Except String (List LlmEntity))
    (response : String) :
    (searchArray response.data = none →
      (∀ i n, ¬ ShapedArr (sliceList response.data i n))
      ∧ extract_json_from_response jsonLoads response
          = .error AnalyzeError.noJsonArray)
    ∧ (∀ s len, searchArray response.data = some (s, len) →
      ShapedArr (sliceList response.data s len)
      ∧ (∀ i < s, ∀ n, ¬ ShapedArr (sliceList response.data i n))
      ∧ ∀ msg, jsonLoads (String.mk (sliceList response.data s len)) = .error msg →
          extract_json_from_response jsonLoads response
            = .error (AnalyzeError.jsonDecodeError msg))
    ∧ (∀ (r : LlmRecognizer) (env : LlmEnv) (text : String)
        (entities allow : List String) (err : AnalyzeError),
        env.jsonLoads = jsonLoads →
        containsSub r.model_name.data "gpt_4o".data = true →
        env.llm (buildPrompt r text
            (if entities.isEmpty then r.supported_entities else entities) allow)
          = .ok response →
        extract_json_from_response jsonLoads response = .error err →
        analyze r env text entities allow = .error err) := by
  refine ⟨?_, ?_, ?_⟩
  · intro h
    constructor
    · intro i n hsh
      exact matchArrayAt_complete hsh (searchArray_none h i)
    · simp [extract_json_from_response, h]
  · intro s len h
    obtain ⟨hma, hmin⟩ := searchArray_some h
    refine ⟨matchArrayAt_sound hma, ?_, ?_⟩
    · intro i hi n hsh
      exact matchArrayAt_complete hsh (hmin i hi)
    · intro msg hj
      simp [extract_json_from_response, h, hj]
  · intro r env text entities allow err henv hmodel hllm hext
    simp only [analyze, hmodel, if_true]
    rw [hllm]
    dsimp only
    rw [henv, hext]

/-- C6: the completion call is attempted at most 3 times; a success on an
attempt returns that attempt's response immediately (1, 2 or 3 calls with
sleeps `[]`, `[2]`, `[2, 4]` — exponential backoff `2^attempt` seconds
between attempts); and when all 3 attempts fail with retryable errors the
last error is re-raised to the caller. -/
theorem C6_retry_at_most_three_with_backoff (k : String) (hk : k ≠ "") (attempts : Nat → AttemptOutcome) :
    (predict_with_gpt_4 (some k) attempts).calls ≤ 3
    ∧ (∀ s, attempts 0 = .success s →
        predict_with_gpt_4 (some k) attempts = ⟨.ok s, 1, []⟩)
    ∧ (∀ s m0, attempts 0 = .retryableError m0 → attempts 1 = .success s →
        predict_with_gpt_4 (some k) attempts = ⟨.ok s, 2, [2]⟩)
    ∧ (∀ s m0 m1, attempts 0 = .retryableError m0 →
        attempts 1 = .retryableError m1 → attempts 2 = .success s →
        predict_with_gpt_4 (some k) attempts = ⟨.ok s, 3, [2, 4]⟩)
    ∧ (∀ m0 m1 m2, attempts 0 = .retryableError m0 →
        attempts 1 = .retryableError m1 → attempts 2 = .retryableError m2 →
        predict_with_gpt_4 (some k) attempts
          = ⟨.error (.apiError m2), 3, [2, 4]⟩) := by
  have hp : predict_with_gpt_4 (some k) attempts = predictLoop attempts 0 3 := by
    simp [predict_with_gpt_4, hk, max_retries]
  refine ⟨?_, ?_, ?_, ?_, ?_⟩
  · rw [hp]
    rcases h0 : attempts 0 with s0 | m0 | m0
    · rw [predictLoop_success h0]; simp
    · rcases h1 : attempts 1 with s1 | m1 | m1
      · rw [predictLoop_retry h0 (by decide), predictLoop_success h1]; simp
      · rcases h2 : attempts 2 with s2 | m2 | m2
        · rw [predictLoop_retry h0 (by decide), predictLoop_retry h1 (by decide),
            predictLoop_success h2]
        · rw [predictLoop_retry h0 (by decide), predictLoop_retry h1 (by decide),
            predictLoop_raise h2 (by decide)]
        · rw [predictLoop_retry h0 (by decide), predictLoop_retry h1 (by decide),
            predictLoop_other h2]
      · rw [predictLoop_retry h0 (by decide), predictLoop_other h1]; simp
    · rw [predictLoop_other h0]; simp
  · intro s h0
    rw [hp, predictLoop_success h0]
  · intro s m0 h0 h1
    rw [hp, predictLoop_retry h0 (by decide), predictLoop_success h1]
    rfl
  · intro s m0 m1 h0 h1 h2
    rw [hp, predictLoop_retry h0 (by decide), predictLoop_retry h1 (by decide),
      predictLoop_success h2]
    rfl
  · intro m0 m1 m2 h0 h1 h2
    rw [hp, predictLoop_retry h0 (by decide), predictLoop_retry h1 (by decide),
      predictLoop_raise h2 (by decide)]
    rfl

/-- Witness for C6: with a key present and every attempt rate-limited, the
call is made 3 times, sleeps 2 then 4 seconds, and re-raises the error. -/
theorem C6_retry_witness :
    predict_with_gpt_4 (some "sk-test") (fun _ => .retryableError "rate limit")
      = ⟨.error (.apiError "rate limit"), 3, [2, 4]⟩ :=
  (C6_retry_at_most_three_with_backoff "sk-test" (by decide) (fun _ => .retryableError "rate limit")).2.2.2.2
    "rate limit" "rate limit" "rate limit" rfl rfl rfl

/-- C7: `predict_with_gpt_4` resolves `OPENAI_API_KEY` from the process
environment at call time; when it is unset (or empty, which Python
truthiness treats the same), it raises `ValueError` with zero provider
calls and zero sleeps — failing fast before any call or retry. -/
theorem C7_missing_credential_fails_fast (attempts : Nat → AttemptOutcome) :
    predict_with_gpt_4 none attempts
      = { result := .error .configError, calls := 0, sleeps := [] }
    ∧ predict_with_gpt_4 (some "") attempts
      = { result := .error .configError, calls := 0, sleeps := [] } :=
  ⟨rfl, rfl⟩

/-- C8: calling `analyze` with an empty requested-entity list behaves
exactly as if `self.supported_entities` had been requested, and for a
recognizer constructed with the default entity list that declared set
consists precisely of the standard entities plus the configured custom
entity names. -/
theorem C8_empty_request_defaults_to_declared_set (r : LlmRecognizer) (env : LlmEnv) (text : String)
    (allow : List String) (model : String)
    (custom : List (String × CustomInfo)) (e : String) :
    analyze r env text [] allow = analyze r env text r.supported_entities allow
    ∧ (e ∈ (llmRecognizerInit model none (some custom)).supported_entities
        ↔ e ∈ ENTITIES ∨ e ∈ custom.map Prod.fst) := by
  constructor
  · simp only [analyze, List.isEmpty_nil, if_true]
    cases h : r.supported_entities.isEmpty <;> simp [h]
  · simp only [llmRecognizerInit]
    cases h : custom.isEmpty with
    | true =>
      have : custom = [] := List.isEmpty_iff.mp h
      subst this
      simp
    | false => simp [h, List.mem_dedup, List.mem_append]

/-- C9: every record returned by `load_custom_entities` keeps its name; a
record that already has a `description` field passes through unchanged,
and a record without one gains the synthesized description
`"Custom entity type: {name}"`, which a lookup on the result returns. -/
theorem C9_missing_description_synthesized (ce : List (String × PyVal)) (res : List (String × CustomInfo))
    (h : load_custom_entities ce = some res) :
    List.Forall₂ fixedRecord ce res := by
  induction ce generalizing res with
  | nil =>
    simp only [load_custom_entities, Option.some.injEq] at h
    subst h
    exact List.Forall₂.nil
  | cons p rest ih =>
    obtain ⟨name, v⟩ := p
    cases v with
    | nonDict => exact absurd h (by simp [load_custom_entities])
    | dict fields =>
      simp only [load_custom_entities] at h
      obtain ⟨res', hres', rfl⟩ := Option.map_eq_some'.mp h
      refine List.Forall₂.cons ?_ (ih res' hres')
      refine ⟨fields, rfl, rfl, ?_, ?_⟩
      · intro hd
        simp [Option.isSome_iff_ne_none.mp hd]
      · intro hd
        simp only [hd, Option.isNone_none, if_true]
        exact ⟨by simp [hd], lookup_append_of_none hd⟩

/-- Witness for C9 on a two-record mapping: `"A"` has a description and is
unchanged, `"B"` has none and gains `"Custom entity type: B"`. -/
theorem C9_description_witness :
    List.Forall₂ fixedRecord
      [("A", PyVal.dict [("description", "d")]),
       ("B", PyVal.dict [("examples", "e")])]
      [("A", [("description", "d")]),
       ("B", [("examples", "e"), ("description", "Custom entity type: B")])] :=
  C9_missing_description_synthesized
    [("A", PyVal.dict [("description", "d")]),
     ("B", PyVal.dict [("examples", "e")])]
    [("A", [("description", "d")]),
     ("B", [("examples", "e"), ("description", "Custom entity type: B")])]
    (by rfl)

/-- C10: every discovered file increments `file_count` and exactly one of
`processed_count` or `error_count`, so at the end of the batch loop
`file_count` equals both the number of files and the sum
`processed_count + error_count`. -/
theorem C10_file_count_splits_into_processed_and_failed (files : List FileCall) :
    (mainLoop files).file_count = files.length
    ∧ (mainLoop files).file_count
      = (mainLoop files).processed_count + (mainLoop files).error_count := by
  have h := mainLoop_aux files ⟨0, 0, 0, 0⟩
  dsimp only at h
  unfold mainLoop
  omega
